import Mathlib

/-!
Verification of the tabular ingestion and normalization engine of the
schahlled-csv repository: a shallow embedding in Lean 4 of the CSV/table
pipeline (cell extraction, type and date coercion, time-axis detection,
stable time sorting, dataset merging, range filtering, moving-average
smoothing), followed by theorems settling the specification claims.

Modelling conventions:
* JavaScript numbers are modelled as exact rationals (ℚ); `NaN` outcomes of
  the numeric parsers are modelled as `Option.none`.
* JavaScript objects used as records are modelled as insertion-ordered
  association lists; property assignment replaces the value in place when
  the key exists and appends otherwise, matching JS object semantics.
* `Date.now()` / `lastModified` fields carry environment time and are not
  part of the value model.
* The ECMAScript stable `Array.prototype.sort` with comparator
  `(a, b) => tA - tB` is modelled by `List.insertionSort` with the
  relation `tA ≤ tB`: a stable ascending sort is extensionally unique, and
  insertion sort under this relation is stable and sorts ascending.
-/

/-- A cell of the canonical table: `Numeric(double)` or `Text(string)`
(`DataPoint` values `string | number` in `types.ts`). -/
inductive Cell where
  | num (q : ℚ)
  | text (s : String)
deriving DecidableEq

/-- A record: one row of the canonical table, a sparse insertion-ordered
mapping from column name to cell (a JS object in the source). -/
abbrev Rec := List (String × Cell)

/-- Raw (pre-coercion) JavaScript values appearing in a raw row. -/
inductive JsVal where
  | undef
  | null
  | str (s : String)
  | num (q : ℚ)
deriving DecidableEq

/-- A raw row: a JS object mapping header names to raw values. -/
abbrev RawRow := List (String × JsVal)

/-- Property read `r[k]` on a record object: first binding wins
(bindings are kept unique by `setKey`). -/
def lookupKey (r : Rec) (k : String) : Option Cell :=
  match r with
  | [] => none
  | (k₀, v₀) :: t => if k₀ = k then some v₀ else lookupKey t k

/-- Property write `r[k] = v` on a record object: replace in place if the
key exists, append otherwise (JS insertion-order semantics). -/
def setKey (r : Rec) (k : String) (v : Cell) : Rec :=
  match r with
  | [] => [(k, v)]
  | (k₀, v₀) :: t => if k₀ = k then (k, v) :: t else (k₀, v₀) :: setKey t k v

/-- Property read `raw[k]` on a raw row; a missing key reads as `undefined`. -/
def rawGet (r : RawRow) (k : String) : JsVal :=
  match r with
  | [] => JsVal.undef
  | (k₀, v₀) :: t => if k₀ = k then v₀ else rawGet t k

/-- Property write on a raw row (JS object semantics, as `setKey`). -/
def setRawKey (r : RawRow) (k : String) (v : JsVal) : RawRow :=
  match r with
  | [] => [(k, v)]
  | (k₀, v₀) :: t => if k₀ = k then (k, v) :: t else (k₀, v₀) :: setRawKey t k v

/-- The double-quote character. -/
def quoteChar : Char := Char.ofNat 34

/-- `val.replace(/^"|"$/g, '')`: strip one leading and one trailing
double quote, each if present. -/
def stripQuotes (s : String) : String :=
  let l := s.toList
  let l₁ := if l.head? = some quoteChar then l.tail else l
  let l₂ := if l₁.getLast? = some quoteChar then l₁.dropLast else l₁
  String.mk l₂

/-- ASCII lower-casing of a string, modelling `String.prototype.toLowerCase`
on the ASCII header names the pipeline deals with. -/
def toLowerStr (s : String) : String :=
  String.mk (s.toList.map Char.toLower)

/-- `String.prototype.trim`: drop leading and trailing whitespace
(implemented over the character list so that it reduces in the kernel). -/
def jsTrim (s : String) : String :=
  String.mk
    (((s.toList.dropWhile Char.isWhitespace).reverse.dropWhile
      Char.isWhitespace).reverse)

/-- Does `cs` start with `pre` (character-wise)? -/
def charsStartWith : List Char → List Char → Bool
  | _, [] => true
  | [], _ :: _ => false
  | a :: as, b :: bs => a = b && charsStartWith as bs

/-- Does `hay` contain `needle` as a contiguous substring?
Models `String.prototype.includes`. -/
def containsSub : List Char → List Char → Bool
  | hay, needle =>
    match hay with
    | [] => needle.isEmpty
    | _ :: t => charsStartWith (hay) needle || containsSub t needle

/-- `h.includes(k)` on strings. -/
def strIncludes (h k : String) : Bool :=
  containsSub h.toList k.toList

/-- Digit list to natural number. -/
def digitsToNat (ds : List Char) : ℕ :=
  ds.foldl (fun n c => n * 10 + (c.toNat - 48)) 0

/-- Read an optional sign; `true` means negative. -/
def readSignB (cs : List Char) : Bool × List Char :=
  match cs with
  | '-' :: t => (true, t)
  | '+' :: t => (false, t)
  | _ => (false, cs)

/-- Read a decimal mantissa `digits [. digits?] | . digits` from the front
of `cs`; returns the integer-part value, the fraction-part value and
length, and the unconsumed rest, or `none` when no mantissa is present. -/
def readMantissa (cs : List Char) : Option ((ℕ × ℕ × ℕ) × List Char) :=
  let (intDs, cs₁) := cs.span Char.isDigit
  match cs₁ with
  | '.' :: rest =>
      let (fracDs, cs₂) := rest.span Char.isDigit
      if intDs.isEmpty && fracDs.isEmpty then none
      else some ((digitsToNat intDs, digitsToNat fracDs, fracDs.length), cs₂)
  | _ =>
      if intDs.isEmpty then none
      else some ((digitsToNat intDs, 0, 0), cs₁)

/-- Read an exponent part `eE [+-]? digits` if well formed; returns the
exponent and rest, or leaves the input untouched. -/
def readExponent (cs : List Char) : ℤ × List Char :=
  match cs with
  | e :: rest =>
      if e = 'e' ∨ e = 'E' then
        let (sgn, rest₁) : ℤ × List Char :=
          match rest with
          | '-' :: t => (-1, t)
          | '+' :: t => (1, t)
          | _ => (1, rest)
        let (expDs, rest₂) := rest₁.span Char.isDigit
        if expDs.isEmpty then (0, cs)
        else (sgn * (digitsToNat expDs : ℤ), rest₂)
      else (0, cs)
  | [] => (0, cs)

/-- The rational value `±(I + F / 10 ^ f) * 10 ^ e` of a decimal literal,
assembled with integer arithmetic. -/
def literalVal (neg : Bool) (I F f : ℕ) (e : ℤ) : ℚ :=
  let n : ℤ := (if neg then -1 else 1) * ((I : ℤ) * 10 ^ f + (F : ℤ))
  if 0 ≤ e then mkRat (n * 10 ^ e.toNat) (10 ^ f)
  else mkRat n (10 ^ f * 10 ^ (-e).toNat)

/-- Model of the JavaScript `Number(string)` conversion on decimal literals:
the whole (trimmed) string must be a signed decimal literal with optional
exponent; `""` converts to `0`; anything else is `NaN` (`none`).
(The hex/binary/`Infinity` forms of `Number` do not occur in this pipeline
and are mapped to `none`.) -/
def jsNumber (s : String) : Option ℚ :=
  let t := jsTrim s
  if t = "" then some 0
  else
    let (neg, cs) := readSignB t.toList
    match readMantissa cs with
    | none => none
    | some (m, rest) =>
        let (ex, rest₂) := readExponent rest
        if rest₂.isEmpty then some (literalVal neg m.1 m.2.1 m.2.2 ex)
        else none

/-- Model of JavaScript `parseFloat(string)`: longest signed decimal prefix
with optional well-formed exponent; `NaN` (`none`) if no digits lead. -/
def parseFloatJS (s : String) : Option ℚ :=
  let (neg, cs) := readSignB (jsTrim s).toList
  match readMantissa cs with
  | none => none
  | some (m, rest) =>
      let (ex, _) := readExponent rest
      some (literalVal neg m.1 m.2.1 m.2.2 ex)

/-- `/^\d{4}-\d{2}-\d{2}/`: four digits, dash, two digits, dash, two digits
at the start of the string. -/
def matchISO (cs : List Char) : Bool :=
  match cs with
  | y₁ :: y₂ :: y₃ :: y₄ :: '-' :: m₁ :: m₂ :: '-' :: d₁ :: d₂ :: _ =>
      [y₁, y₂, y₃, y₄, m₁, m₂, d₁, d₂].all Char.isDigit
  | _ => false

/-- `/^\d{2}\.\d{2}\.\d{4}/`. -/
def matchDotted (cs : List Char) : Bool :=
  match cs with
  | d₁ :: d₂ :: '.' :: m₁ :: m₂ :: '.' :: y₁ :: y₂ :: y₃ :: y₄ :: _ =>
      [d₁, d₂, m₁, m₂, y₁, y₂, y₃, y₄].all Char.isDigit
  | _ => false

/-- `/^\d{2}\/\d{2}\/\d{4}/`. -/
def matchSlashedDMY (cs : List Char) : Bool :=
  match cs with
  | d₁ :: d₂ :: '/' :: m₁ :: m₂ :: '/' :: y₁ :: y₂ :: y₃ :: y₄ :: _ =>
      [d₁, d₂, m₁, m₂, y₁, y₂, y₃, y₄].all Char.isDigit
  | _ => false

/-- `/^\d{4}\/\d{2}\/\d{2}/` — the slash-ISO shape accepted by the generic
`new Date(string)` fallback. -/
def matchSlashedYMD (cs : List Char) : Bool :=
  match cs with
  | y₁ :: y₂ :: y₃ :: y₄ :: '/' :: m₁ :: m₂ :: '/' :: d₁ :: d₂ :: _ =>
      [y₁, y₂, y₃, y₄, m₁, m₂, d₁, d₂].all Char.isDigit
  | _ => false

/-- `isDateString` from `csvParser.ts`: does a string look like a date
(`YYYY-MM-DD`, `DD.MM.YYYY` or `DD/MM/YYYY` at the front)? -/
def isDateString (s : String) : Bool :=
  matchISO s.toList || matchDotted s.toList || matchSlashedDMY s.toList

/-- Days from the civil epoch 1970-01-01 for a (normalized) proleptic
Gregorian date, the standard days-from-civil computation underlying
ECMAScript date arithmetic. -/
def daysFromCivil (y m d : ℤ) : ℤ :=
  let y := if m ≤ 2 then y - 1 else y
  let era := y.fdiv 400
  let yoe := y - era * 400
  let mp := (m + 9).fmod 12
  let doy := (153 * mp + 2).fdiv 5 + d - 1
  let doe := yoe * 365 + yoe.fdiv 4 - yoe.fdiv 100 + doy
  era * 146097 + doe - 719468

/-- `new Date(y, mIndex, d).getTime()` at UTC offset zero: the month index
and day are normalized as the ECMAScript `Date` constructor does (month
indices outside `0..11` roll the year; two-digit years map to `1900 + y`). -/
def dateMillis (y mIndex d : ℤ) : ℤ :=
  let y := if 0 ≤ y ∧ y ≤ 99 then y + 1900 else y
  let ym := y * 12 + mIndex
  let y₁ := ym.fdiv 12
  let m₁ := ym.fmod 12
  (daysFromCivil y₁ (m₁ + 1) 1 + (d - 1)) * 86400000

/-- `parseInt(s, 10)` restricted to its uses here (digit-leading parts cut
out of a date string by the surrounding regular-expression guards):
the value of the leading run of decimal digits, `0` in the unreachable
no-digit case. -/
def parseIntJS (s : String) : ℤ :=
  (digitsToNat (s.toList.takeWhile Char.isDigit) : ℤ)

/-- Split a character list at every occurrence of any of the given
single-character separators (models `String.prototype.split` with a
single-character-alternative regular expression such as `/[-T ]/`). -/
def splitOnChars (seps : List Char) : List Char → List Char → List (List Char)
  | acc, [] => [acc.reverse]
  | acc, c :: rest =>
      if c ∈ seps then acc.reverse :: splitOnChars seps [] rest
      else splitOnChars seps (c :: acc) rest

/-- `s.split(/[-T ]/)` and friends, as strings. -/
def splitStr (seps : List Char) (s : String) : List String :=
  (splitOnChars seps [] s.toList).map String.mk

/-- `parseDateToTimestamp` of `csvParser.ts` on string input: ISO
`YYYY-MM-DD` split explicitly into local-midnight components, `DD.MM.YYYY`
likewise; otherwise the generic `new Date(string)` fallback, modelled for
the remaining recognized `YYYY/MM/DD` shape, with every other string
unparsable (`NaN`, hence the code's `0` fallback). -/
def tsOfString (s : String) : ℤ :=
  if matchISO s.toList then
    let parts := splitStr ['-', 'T', ' '] s
    if 3 ≤ parts.length then
      dateMillis (parseIntJS (parts.getD 0 "")) (parseIntJS (parts.getD 1 "") - 1)
        (parseIntJS (parts.getD 2 ""))
    else 0
  else if matchDotted s.toList then
    let parts := splitStr ['.'] s
    dateMillis (parseIntJS (parts.getD 2 "")) (parseIntJS (parts.getD 1 "") - 1)
      (parseIntJS (parts.getD 0 ""))
  else if matchSlashedYMD s.toList then
    let parts := splitStr ['/'] s
    dateMillis (parseIntJS (parts.getD 0 "")) (parseIntJS (parts.getD 1 "") - 1)
      (parseIntJS (parts.getD 2 ""))
  else 0

/-- `parseDateToTimestamp` on a cell read from a row: numbers pass through
(spreadsheet serial / epoch), strings are parsed, an absent cell
(`undefined`) falls back to `0`. -/
def parseDateToTimestamp (v : Option Cell) : ℚ :=
  match v with
  | some (Cell.num q) => q
  | some (Cell.text s) => (tsOfString s : ℚ)
  | none => 0

/-- The time-axis keywords of `processData`. -/
def timeKeywords : List String :=
  ["datum", "date", "zeit", "time", "timestamp", "created"]

/-- Does a header match a time keyword
(`timeKeywords.some(k => h.toLowerCase().includes(k))`)? -/
def matchesTimeKeyword (h : String) : Bool :=
  timeKeywords.any (fun k => strIncludes (toLowerStr h) k)

/-- `headers.find(h => ...) || ''`: the first time-keyword header, or the
empty string when none matches. -/
def timeHeaderOf (headers : List String) : String :=
  (headers.find? matchesTimeKeyword).getD ""

/-- Canonical timestamp of a row under axis header `th`. -/
def rowTs (th : String) (r : Rec) : ℚ :=
  parseDateToTimestamp (lookupKey r th)

/-- The sort relation corresponding to a JS comparator
`(a, b) => t(a) - t(b)`: keep `a` before `b` exactly when `t a ≤ t b`.
A stable ascending sort under this relation is the unique behaviour of the
stable ECMAScript `Array.prototype.sort`; it is realised here by
`List.insertionSort`, which is stable and structurally recursive. -/
def keyLeP {α : Type} (t : α → ℚ) (a b : α) : Prop :=
  t a ≤ t b

instance keyLeP.instDecidableRel {α : Type} (t : α → ℚ) :
    DecidableRel (keyLeP t) :=
  fun a b => inferInstanceAs (Decidable (t a ≤ t b))

instance keyLeP.instIsTotal {α : Type} (t : α → ℚ) :
    IsTotal α (keyLeP t) :=
  ⟨fun a b => le_total (t a) (t b)⟩

instance keyLeP.instIsTrans {α : Type} (t : α → ℚ) :
    IsTrans α (keyLeP t) :=
  ⟨fun _ _ _ hab hbc => le_trans hab hbc⟩

/-- The stable ascending sort of rows by canonical timestamp
(`rows.sort((a, b) => tA - tB)` under the stable ECMAScript sort). -/
def sortRows (th : String) (rows : List Rec) : List Rec :=
  rows.insertionSort (keyLeP (rowTs th))

/-- Coercion of a non-empty raw string value in `processData`: trim, strip
one layer of wrapping quotes, then store as `Numeric` exactly when the
result converts to a number via `Number(..)`, is non-empty and is not
date-shaped; otherwise store the string verbatim as `Text`. -/
def coerceString (s : String) : Cell :=
  let v := stripQuotes (jsTrim s)
  match jsNumber v with
  | some q => if v ≠ "" ∧ ¬ isDateString v then Cell.num q else Cell.text v
  | none => Cell.text v

/-- The per-cell outcome of `processData`: `undefined`, `null` and the empty
string leave the key absent; other strings go through `coerceString`;
numbers are stored as they are. -/
def coerceCellOpt (v : JsVal) : Option Cell :=
  match v with
  | JsVal.undef => none
  | JsVal.null => none
  | JsVal.str s => if s = "" then none else some (coerceString s)
  | JsVal.num q => some (Cell.num q)

/-- The row-building loop body of `processData`: walk the headers in order,
setting each key whose raw value is present and coercible. -/
def coerceRow (headers : List String) (raw : RawRow) : Rec :=
  headers.foldl (fun acc h =>
    match coerceCellOpt (rawGet raw h) with
    | some c => setKey acc h c
    | none => acc) []

/-- The row loop of `processData`: skip empty raw rows, coerce the rest,
drop rows whose coercion yields no present key. -/
def buildRows (headers : List String) : List RawRow → List Rec
  | [] => []
  | r :: rs =>
      if r.isEmpty then buildRows headers rs
      else
        let row := coerceRow headers r
        if row.isEmpty then buildRows headers rs
        else row :: buildRows headers rs

/-- The canonical table (the `ParsedData` shape of `types.ts`; the
`lastModified` wall-clock field is outside the value model). -/
structure ParsedData where
  headers : List String
  rows : List Rec
  fileName : Option String := none
  hasTimeAxis : Bool := false
deriving DecidableEq

/-- `processData` of `csvParser.ts`: detect the time axis from the headers,
coerce the raw rows, and stably sort by the axis timestamp when a time
axis exists. -/
def processData (headers : List String) (rawRows : List RawRow)
    (fileName : Option String) : ParsedData :=
  let timeHeader := timeHeaderOf headers
  let hasTA := timeHeader ≠ ""
  let rows := buildRows headers rawRows
  let rows := if hasTA then sortRows timeHeader rows else rows
  { headers := headers, rows := rows, fileName := fileName,
    hasTimeAxis := hasTA }

/-- Split text into lines at `\r\n` or `\n` (`text.split(/\r\n|\n/)`). -/
def splitLinesChars : List Char → List Char → List (List Char)
  | acc, [] => [acc.reverse]
  | acc, '\r' :: '\n' :: rest => acc.reverse :: splitLinesChars [] rest
  | acc, '\n' :: rest => acc.reverse :: splitLinesChars [] rest
  | acc, c :: rest => splitLinesChars (c :: acc) rest

/-- Line splitting on a string. -/
def splitLines (s : String) : List String :=
  (splitLinesChars [] s.toList).map String.mk

/-- The quote-aware field split
`line.split(/,(?=(?:(?:[^"]*"){2})*[^"]*$)/)`: split at exactly the commas
followed by an even number of double quotes up to the end of the line. -/
def smartSplitChars : List Char → List Char → List (List Char)
  | acc, [] => [acc.reverse]
  | acc, c :: rest =>
      if c = ',' ∧ rest.count quoteChar % 2 = 0 then
        acc.reverse :: smartSplitChars [] rest
      else smartSplitChars (c :: acc) rest

/-- Quote-aware split on a string. -/
def smartSplit (s : String) : List String :=
  (smartSplitChars [] s.toList).map String.mk

/-- Plain `line.split(',')`. -/
def plainSplitComma (s : String) : List String :=
  splitStr [','] s

/-- The raw-row object built by the CSV branch of the first `parseFile`
variant: `headers.forEach((h, i) => rowObj[h] = vals[i])`, missing
positions reading as `undefined`. -/
def buildRawObj (headers vals : List String) : RawRow :=
  headers.enum.foldl (fun acc p =>
    setRawKey acc p.2
      (match vals.get? p.1 with
       | some v => JsVal.str v
       | none => JsVal.undef)) []

/-- The CSV branch of the first `parseFile` variant (`csvParser.ts`,
`processData` lineage): smart-split the header line and every data line,
key the values by header, and normalize through `processData`. Fewer than
two lines yield the empty table. -/
def parseFileCSV (text : String) (fileName : Option String) : ParsedData :=
  let lines := splitLines (jsTrim text)
  if lines.length < 2 then
    { headers := [], rows := [], fileName := none, hasTimeAxis := false }
  else
    let headers := (smartSplit (lines.getD 0 "")).map (fun h => stripQuotes (jsTrim h))
    let dataRows := (lines.drop 1).map (fun line => buildRawObj headers (smartSplit line))
    processData headers dataRows fileName

/-- The cell coercion of the second `parseCSV` variant:
`values[index]?.trim()`, strip quotes if non-empty, then `parseFloat`; a
finite parse of a non-empty field is stored as `Numeric`, everything else
(including the empty string) is stored as `Text`. -/
def coerceCSVCell (v : String) : Cell :=
  let val := jsTrim v
  let val := if val ≠ "" then stripQuotes val else val
  match parseFloatJS val with
  | some q => if val ≠ "" then Cell.num q else Cell.text val
  | none => Cell.text val

/-- One record of the second `parseCSV` variant: every header receives a
key (field counts match by the caller's guard). -/
def parseCSVRow (headers vals : List String) : Rec :=
  (headers.zip vals).foldl (fun acc p => setKey acc p.1 (coerceCSVCell p.2)) []

/-- The data-line loop of the second `parseCSV` variant: skip blank lines,
smart-split the rest, and keep exactly the lines whose field count equals
the header count. -/
def parseCSVRows (headers : List String) : List String → List Rec
  | [] => []
  | line :: rest =>
      if jsTrim line = "" then parseCSVRows headers rest
      else
        let values := smartSplit line
        if values.length = headers.length then
          parseCSVRow headers values :: parseCSVRows headers rest
        else parseCSVRows headers rest

/-- The second `parseCSV` variant of `csvParser.ts` (the lineage without
a date guard): plain comma split for the header line, quote-aware split
for data lines, `parseFloat` coercion, silent drop of lines whose field
count differs from the header count. Its `ParsedData` carries no
`hasTimeAxis` flag; the absent flag is modelled as `false`. -/
def parseCSVv2 (csvText : String) (fileName : Option String) : ParsedData :=
  let lines := splitLines (jsTrim csvText)
  if lines.length < 2 then
    { headers := [], rows := [], fileName := none, hasTimeAxis := false }
  else
    let headers := (plainSplitComma (lines.getD 0 "")).map (fun h => stripQuotes (jsTrim h))
    { headers := headers, rows := parseCSVRows headers (lines.drop 1),
      fileName := fileName, hasTimeAxis := false }

/-- The time keywords of the union `mergeDatasets` variant — note: a
strict subset of `processData`'s keywords (`timestamp` and `created` are
missing). -/
def mergeTimeKeywords : List String := ["datum", "date", "zeit", "time"]

/-- The master time header the union merger re-sorts by: the first
existing header containing a merge-time keyword. -/
def mergeTimeHeaderOf (headers : List String) : Option String :=
  headers.find? (fun h => mergeTimeKeywords.any (fun k => strIncludes (toLowerStr h) k))

/-- `Array.from(new Set(l))`: deduplicate keeping the first occurrence of
each element, in insertion order. -/
def dedupFirst (l : List String) : List String :=
  go l []
where
  go : List String → List String → List String
  | [], _ => []
  | h :: t, seen => if h ∈ seen then go t seen else h :: go t (h :: seen)

/-- The `a[timeHeader] || ''` read in the union merger's comparator: a
falsy cell (absent, numeric `0`, or the empty string) is replaced by the
empty string. -/
def cellOrEmpty (v : Option Cell) : Cell :=
  match v with
  | none => Cell.text ""
  | some (Cell.num q) => if q = 0 then Cell.text "" else Cell.num q
  | some (Cell.text s) => if s = "" then Cell.text "" else Cell.text s

/-- Row timestamp as computed inside the union merger
(`parseDateToTimestamp(a[timeHeader] || '')`). -/
def rowTsMerge (th : String) (r : Rec) : ℚ :=
  parseDateToTimestamp (some (cellOrEmpty (lookupKey r th)))

/-- The union `mergeDatasets` variant of `csvParser.ts`: set-union of the
headers, concatenation of the rows, stable re-sort by the master time
header when one exists; the receiving table's file name is kept and the
time-axis flags are or-ed. -/
def mergeDatasets (existing incoming : ParsedData) : ParsedData :=
  let timeHeader := mergeTimeHeaderOf existing.headers
  let newHeaders := dedupFirst (existing.headers ++ incoming.headers)
  let newRows := existing.rows ++ incoming.rows
  let newRows :=
    match timeHeader with
    | some th => newRows.insertionSort (keyLeP (rowTsMerge th))
    | none => newRows
  { headers := newHeaders, rows := newRows, fileName := existing.fileName,
    hasTimeAxis := existing.hasTimeAxis || incoming.hasTimeAxis }

/-- The strict `mergeDatasets` variant: reject the merge when the incoming
table shares no header with the existing one; otherwise keep the existing
headers and append the incoming rows restricted to the existing headers. -/
def mergeDatasetsStrict (existing incoming : ParsedData) :
    Except String ParsedData :=
  let common := incoming.headers.filter (fun h => h ∈ existing.headers)
  if common.length = 0 then
    Except.error "Die Dateien haben keine gemeinsamen Spalten."
  else
    let normalized := incoming.rows.map (fun row =>
      existing.headers.foldl (fun acc h =>
        match lookupKey row h with
        | some v => setKey acc h v
        | none => acc) [])
    Except.ok { existing with rows := existing.rows ++ normalized }

/-- Lexicographic (code-unit) comparison of character lists, modelling the
ECMAScript relational comparison of strings. -/
def charListLt : List Char → List Char → Bool
  | [], [] => false
  | [], _ :: _ => true
  | _ :: _, [] => false
  | a :: as, b :: bs =>
      if a.toNat < b.toNat then true
      else if b.toNat < a.toNat then false
      else charListLt as bs

/-- JS `a < b` on strings. -/
def jsStrLt (a b : String) : Bool :=
  charListLt a.toList b.toList

/-- JS `a <= b` on strings (`!(b < a)` under the total lexicographic
order). -/
def jsStrLe (a b : String) : Bool :=
  !(jsStrLt b a)

/-- JS `a >= b` on strings (`!(a < b)`). -/
def jsStrGe (a b : String) : Bool :=
  !(jsStrLt a b)

/-- The `filteredRows` memo of `App.tsx` (range-filter lineage): with both
bounds empty, the rows pass through untouched; otherwise a row is kept
when its axis cell is not a string, or when its string value compares
lexically within the non-empty bounds. -/
def filteredRows (data : ParsedData) (xAxisKey filterStart filterEnd : String) :
    List Rec :=
  if filterStart = "" ∧ filterEnd = "" then data.rows
  else
    data.rows.filter (fun row =>
      match lookupKey row xAxisKey with
      | some (Cell.text v) =>
          let passStart := if filterStart ≠ "" then jsStrGe v filterStart else true
          let passEnd := if filterEnd ≠ "" then jsStrLe v filterEnd else true
          passStart && passEnd
      | _ => true)

/-- The numeric reading of a cell inside the moving-average sum: a
non-numeric or absent cell contributes `0`. -/
def numOr0 (v : Option Cell) : ℚ :=
  match v with
  | some (Cell.num q) => q
  | _ => 0

/-- `calculateMovingAverage` of the chart component: for each row index,
average the column's numeric values over the left-anchored window
`slice(max(0, i - w + 1), i + 1)`, counting non-numeric cells as `0`. -/
def calculateMovingAverage (data : List Rec) (key : String) (windowSize : ℕ) :
    List ℚ :=
  (List.range data.length).map (fun index =>
    let start := index + 1 - windowSize
    let subset := (data.take (index + 1)).drop start
    let sum := subset.foldl (fun acc curr => acc + numOr0 (lookupKey curr key)) 0
    sum / (subset.length : ℚ))

/-- `Number(x.toFixed(2))`: round to two decimal places. -/
def round2 (q : ℚ) : ℚ :=
  (round (q * 100) : ℤ) / 100

/-- The `chartData` memo of the chart component: window size at most one
returns the stored rows as they are; otherwise each selected column of a
shallow-copied row array is overwritten with its rounded moving average
(computed from the original rows). The shallow copy makes the transform
display-only; in this value model it is the identity on the row list. -/
def chartData (rows : List Rec) (activeLines : List String) (smoothing : ℕ) :
    List Rec :=
  if smoothing ≤ 1 then rows
  else
    activeLines.foldl (fun acc key =>
      let averages := calculateMovingAverage rows key smoothing
      (acc.zip averages).map (fun p => setKey p.1 key (Cell.num (round2 p.2))))
      rows

/-! ### Specification-side definitions

These definitions transcribe the wording of specification claims (not the
source), to be compared with the source-derived definitions above. -/

/-- The time-axis keyword set as the specification's claim states it,
including `"index"` (the source's `processData` keyword list has no
`"index"`). -/
def specTimeKeywordsWithIndex : List String :=
  ["datum", "date", "zeit", "time", "timestamp", "created", "index"]

/-- Does some header match a keyword of the specification's
seven-keyword set? -/
def specHasTimeAxisWithIndex (headers : List String) : Bool :=
  headers.any (fun h =>
    specTimeKeywordsWithIndex.any (fun k => strIncludes (toLowerStr h) k))

/-- The range-filter retention predicate as the specification's claim
states it: a row whose axis cell is not a date-shaped string passes
through; a date-shaped axis string must compare lexically within the
non-empty bounds. -/
def specRetainDateShaped (xAxisKey filterStart filterEnd : String) (row : Rec) :
    Bool :=
  match lookupKey row xAxisKey with
  | some (Cell.text v) =>
      if isDateString v then
        (decide (filterStart = "") || jsStrGe v filterStart) &&
        (decide (filterEnd = "") || jsStrLe v filterEnd)
      else true
  | _ => true

/-- The smoothed value as the specification's claim states it: the sum
over the window `rows[max(0, i - w + 1) .. i]`, divided by the window
length `i - max(0, i - w + 1) + 1`. -/
def specSmoothedValue (rows : List Rec) (key : String) (w i : ℕ) : ℚ :=
  let lo := i + 1 - w
  let window := (rows.drop lo).take (i + 1 - lo)
  (window.map (fun r => numOr0 (lookupKey r key))).sum / ((i - lo + 1 : ℕ) : ℚ)

/-! ### Concrete instances used by counterexamples and witnesses -/

/-- The empty table (`headers: [], rows: []`). -/
def emptyPD : ParsedData := { headers := [], rows := [] }

/-- Raw rows of a one-column `Datum` table, out of order. -/
def rawsDatum : List RawRow :=
  [[("Datum", JsVal.str "2024-01-02")], [("Datum", JsVal.str "2024-01-01")]]

/-- A canonical table whose detected axis is `Created_At` (matched via the
`created` keyword) while a different header `Datum` matches the union
merger's shorter keyword list; its rows are sorted by `Created_At` but not
by `Datum`. -/
def tblCreatedDatum : ParsedData :=
  processData ["Created_At", "Datum"]
    [[("Created_At", JsVal.str "2024-01-02"), ("Datum", JsVal.str "2024-01-01")],
     [("Created_At", JsVal.str "2024-01-01"), ("Datum", JsVal.str "2024-01-02")]]
    (some "a.csv")

/-- Canonical table with headers `["Datum", "A"]` (merge scenario B). -/
def tblDatumA : ParsedData :=
  processData ["Datum", "A"]
    [[("Datum", JsVal.str "2024-01-02"), ("A", JsVal.str "1")]] (some "e.csv")

/-- Canonical table with headers `["Datum", "B"]` (merge scenario B). -/
def tblDatumB : ParsedData :=
  processData ["Datum", "B"]
    [[("Datum", JsVal.str "2024-01-01"), ("B", JsVal.str "2")]] (some "i.csv")

/-- A table with a categorical (non-date) string axis. -/
def tblFruit : ParsedData :=
  { headers := ["Fruit"], rows := [[("Fruit", Cell.text "Apple")]] }

/-- Scenario A's table: `"Datum,Wert\n2024-01-02,5\n2024-01-01,3"` parsed. -/
def tblScenarioA : ParsedData :=
  parseFileCSV "Datum,Wert\n2024-01-02,5\n2024-01-01,3" (some "a.csv")

/-- Three numeric rows for the smoothing witness. -/
def rowsSmooth : List Rec :=
  [[("A", Cell.num 1)], [("A", Cell.num 2)], [("A", Cell.num 4)]]

/-! ### Record lemmas -/

theorem lookupKey_setKey_self (r : Rec) (k : String) (v : Cell) :
    lookupKey (setKey r k v) k = some v := by
  induction r with
  | nil => simp [setKey, lookupKey]
  | cons p t ih =>
      obtain ⟨k₀, v₀⟩ := p
      by_cases h : k₀ = k
      · simp [setKey, lookupKey, h]
      · simp [setKey, lookupKey, h, ih]

theorem lookupKey_setKey_ne (r : Rec) (k k₀ : String) (v : Cell)
    (h : k₀ ≠ k) : lookupKey (setKey r k v) k₀ = lookupKey r k₀ := by
  have h2 : k ≠ k₀ := Ne.symm h
  induction r with
  | nil => simp [setKey, lookupKey, h2]
  | cons p t ih =>
      obtain ⟨k₁, v₁⟩ := p
      by_cases h₁ : k₁ = k
      · subst h₁
        simp [setKey, lookupKey, h2]
      · simp [setKey, lookupKey, h₁, ih]

theorem setKey_ne_nil (r : Rec) (k : String) (v : Cell) :
    setKey r k v ≠ [] := by
  cases r with
  | nil => simp [setKey]
  | cons p t =>
      obtain ⟨k₀, v₀⟩ := p
      by_cases h : k₀ = k <;> simp [setKey, h]

/-! ### The per-cell shape of `processData` rows -/

theorem lookupKey_coerceRow_foldl (raw : RawRow) (hs : List String)
    (acc : Rec) (h : String) :
    lookupKey (hs.foldl (fun acc h =>
      match coerceCellOpt (rawGet raw h) with
      | some c => setKey acc h c
      | none => acc) acc) h =
    if h ∈ hs ∧ (coerceCellOpt (rawGet raw h)).isSome
    then coerceCellOpt (rawGet raw h) else lookupKey acc h := by
  induction hs generalizing acc with
  | nil => simp
  | cons h₀ t ih =>
      by_cases he : h₀ = h
      · subst he
        cases hv : coerceCellOpt (rawGet raw h₀) with
        | none =>
            simp only [List.foldl_cons, hv, ih]
            simp [hv]
        | some c =>
            simp only [List.foldl_cons, hv, ih]
            by_cases hm : h₀ ∈ t
            · simp [hm, hv]
            · simp [hm, hv, lookupKey_setKey_self]
      · have he2 : h ≠ h₀ := Ne.symm he
        cases hv : coerceCellOpt (rawGet raw h₀) with
        | none =>
            simp only [List.foldl_cons, hv, ih]
            simp [List.mem_cons, he2]
        | some c =>
            simp only [List.foldl_cons, hv, ih]
            simp [List.mem_cons, he2, lookupKey_setKey_ne _ _ _ _ he2]

theorem lookupKey_coerceRow (raw : RawRow) (hs : List String) (h : String) :
    lookupKey (coerceRow hs raw) h =
    if h ∈ hs ∧ (coerceCellOpt (rawGet raw h)).isSome
    then coerceCellOpt (rawGet raw h) else none := by
  have := lookupKey_coerceRow_foldl raw hs [] h
  simpa [coerceRow, lookupKey] using this

theorem mem_buildRows_ne_nil (hs : List String) (raws : List RawRow)
    (r : Rec) (hr : r ∈ buildRows hs raws) : r ≠ [] := by
  induction raws with
  | nil => simp [buildRows] at hr
  | cons a t ih =>
      by_cases ha : a.isEmpty
      · rw [buildRows, if_pos ha] at hr
        exact ih hr
      · rw [buildRows, if_neg ha] at hr
        by_cases hrow : (coerceRow hs a).isEmpty
        · rw [if_pos hrow] at hr
          exact ih hr
        · rw [if_neg hrow] at hr
          rcases List.mem_cons.mp hr with h | h
          · subst h
            simpa [List.isEmpty_iff] using hrow
          · exact ih h

/-! ### Stable key-sort lemmas -/

theorem sorted_insertionSort_key {α : Type} (t : α → ℚ) (l : List α) :
    (l.insertionSort (keyLeP t)).Pairwise (keyLeP t) :=
  List.sorted_insertionSort (keyLeP t) l

theorem insertionSort_key_of_sorted {α : Type} (t : α → ℚ) (l : List α)
    (h : l.Pairwise (keyLeP t)) : l.insertionSort (keyLeP t) = l :=
  List.Sorted.insertionSort_eq h

theorem insertionSort_key_perm {α : Type} (t : α → ℚ) (l : List α) :
    List.Perm (l.insertionSort (keyLeP t)) l :=
  List.perm_insertionSort (keyLeP t) l

theorem insertionSort_key_filter {α : Type} (t : α → ℚ) (q : ℚ) (l : List α) :
    (l.insertionSort (keyLeP t)).filter (fun r => decide (t r = q)) =
    l.filter (fun r => decide (t r = q)) := by
  set p : α → Bool := fun r => decide (t r = q) with hp
  have hsub : List.Sublist (l.filter p) l := List.filter_sublist l
  have hkey : ∀ x ∈ l.filter p, t x = q := by
    intro x hx
    exact of_decide_eq_true (List.mem_filter.mp hx).2
  have hpair : (l.filter p).Pairwise (keyLeP t) := by
    apply List.pairwise_of_forall_mem_list
    intro a ha b hb
    exact le_of_eq ((hkey a ha).trans (hkey b hb).symm)
  have hstable : List.Sublist (l.filter p) (l.insertionSort (keyLeP t)) :=
    List.sublist_insertionSort hpair hsub
  have hs₂ : List.Sublist (l.filter p)
      ((l.insertionSort (keyLeP t)).filter p) := by
    have hff := hstable.filter p
    have hpp : (fun a => p a && p a) = p := by
      funext a
      cases p a <;> simp
    rwa [List.filter_filter, hpp] at hff
  refine (hs₂.eq_of_length ?_).symm
  have hperm : List.Perm (l.insertionSort (keyLeP t)) l :=
    List.perm_insertionSort (keyLeP t) l
  calc (l.filter p).length = l.countP p := by
        simp [List.countP_eq_length_filter]
    _ = (l.insertionSort (keyLeP t)).countP p := (hperm.countP_eq p).symm
    _ = ((l.insertionSort (keyLeP t)).filter p).length := by
        simp [List.countP_eq_length_filter]

/-! ### Deduplication (`Array.from(new Set(...))`) lemmas -/

theorem dedupFirst_go_of_nodup (l : List String) :
    ∀ seen, l.Nodup →
    dedupFirst.go l seen = l.filter (fun x => decide (x ∉ seen)) := by
  induction l with
  | nil => intro seen _; simp [dedupFirst.go]
  | cons a t ih =>
      intro seen hnd
      have hat : a ∉ t := (List.nodup_cons.mp hnd).1
      have hnt : t.Nodup := (List.nodup_cons.mp hnd).2
      by_cases ha : a ∈ seen
      · rw [dedupFirst.go, if_pos ha, ih seen hnt,
          List.filter_cons_of_neg]
        simp [ha]
      · have hfil : t.filter (fun x => decide (x ∉ a :: seen)) =
            t.filter (fun x => decide (x ∉ seen)) := by
          apply List.filter_congr
          intro x hx
          have hxa : x ≠ a := fun hh => hat (hh ▸ hx)
          simp [List.mem_cons, hxa]
        rw [dedupFirst.go, if_neg ha, ih (a :: seen) hnt,
          List.filter_cons_of_pos (by simpa using ha), hfil]

theorem dedupFirst_go_append (l₂ : List String) (h₂ : l₂.Nodup) :
    ∀ (l₁ seen : List String), l₁.Nodup → (∀ x ∈ l₁, x ∉ seen) →
    dedupFirst.go (l₁ ++ l₂) seen =
      l₁ ++ l₂.filter (fun x => decide (x ∉ seen ∧ x ∉ l₁)) := by
  intro l₁
  induction l₁ with
  | nil =>
      intro seen _ _
      rw [List.nil_append, dedupFirst_go_of_nodup l₂ seen h₂]
      simp
  | cons a t ih =>
      intro seen hnd hdisj
      have hat : a ∉ t := (List.nodup_cons.mp hnd).1
      have hnt : t.Nodup := (List.nodup_cons.mp hnd).2
      have ha : a ∉ seen := hdisj a (List.mem_cons_self a t)
      have hstep : ∀ x ∈ t, x ∉ a :: seen := by
        intro x hx
        simp only [List.mem_cons]
        push_neg
        exact ⟨fun hh => hat (hh ▸ hx), hdisj x (List.mem_cons_of_mem a hx)⟩
      have hfil : l₂.filter (fun x => decide (x ∉ a :: seen ∧ x ∉ t)) =
          l₂.filter (fun x => decide (x ∉ seen ∧ x ∉ a :: t)) := by
        apply List.filter_congr
        intro x _
        by_cases hxa : x = a
        · subst hxa
          simp
        · simp [List.mem_cons, hxa]
      rw [List.cons_append, dedupFirst.go, if_neg ha,
        ih (a :: seen) hnt hstep, hfil, List.cons_append]

theorem dedupFirst_append (l₁ l₂ : List String) (h₁ : l₁.Nodup)
    (h₂ : l₂.Nodup) :
    dedupFirst (l₁ ++ l₂) = l₁ ++ l₂.filter (fun x => decide (x ∉ l₁)) := by
  rw [dedupFirst, dedupFirst_go_append l₂ h₂ l₁ [] h₁ (by simp)]
  simp

theorem dedupFirst_of_nodup (l : List String) (h : l.Nodup) :
    dedupFirst l = l := by
  rw [dedupFirst, dedupFirst_go_of_nodup l [] h]
  simp

theorem dedupFirst_go_mem (l : List String) :
    ∀ seen x, x ∈ dedupFirst.go l seen → x ∈ l ∧ x ∉ seen := by
  induction l with
  | nil => intro seen x hx; simp [dedupFirst.go] at hx
  | cons a t ih =>
      intro seen x hx
      by_cases ha : a ∈ seen
      · rw [dedupFirst.go, if_pos ha] at hx
        obtain ⟨h₁, h₂⟩ := ih seen x hx
        exact ⟨List.mem_cons_of_mem a h₁, h₂⟩
      · rw [dedupFirst.go, if_neg ha] at hx
        rcases List.mem_cons.mp hx with h | h
        · subst h
          exact ⟨List.mem_cons_self x t, ha⟩
        · obtain ⟨h₁, h₂⟩ := ih (a :: seen) x h
          refine ⟨List.mem_cons_of_mem a h₁, ?_⟩
          intro hc
          exact h₂ (List.mem_cons_of_mem a hc)

theorem dedupFirst_go_nodup (l : List String) :
    ∀ seen, (dedupFirst.go l seen).Nodup := by
  induction l with
  | nil => intro seen; simp [dedupFirst.go]
  | cons a t ih =>
      intro seen
      by_cases ha : a ∈ seen
      · rw [dedupFirst.go, if_pos ha]
        exact ih seen
      · rw [dedupFirst.go, if_neg ha]
        refine List.nodup_cons.mpr ⟨?_, ih (a :: seen)⟩
        intro hc
        exact (dedupFirst_go_mem t (a :: seen) a hc).2
          (List.mem_cons_self a seen)

theorem dedupFirst_nodup (l : List String) : (dedupFirst l).Nodup :=
  dedupFirst_go_nodup l []

/-! ### Bridging lemmas for `processData` -/

theorem sortRows_eq_insertionSort_key (th : String) (l : List Rec) :
    sortRows th l = l.insertionSort (keyLeP (rowTs th)) := rfl

theorem processData_rows_of_timeAxis (hs : List String) (raws : List RawRow)
    (fn : Option String) (hth : timeHeaderOf hs ≠ "") :
    (processData hs raws fn).rows =
      sortRows (timeHeaderOf hs) (buildRows hs raws) := by
  simp [processData, hth]

/-! ### Claims -/

/-- C1, counterexample: the `parseCSV` coercer converts the date-shaped
ingested cell `"2024-01-02"` to `Numeric(2024)` via `parseFloat`, so the
claim as stated (date-shaped strings are never stored as `Numeric`) is
false on that coercer. -/
theorem C1_counterexample_parseCSV_numerifies_date :
    isDateString "2024-01-02" = true ∧
    (parseCSVv2 "Datum,Wert\n2024-01-02,5" (some "a.csv")).rows =
      [[("Datum", Cell.num 2024), ("Wert", Cell.num 5)]] := by
  constructor
  · decide
  · decide

/-- C1, amended: in the `processData` coercer (the variant with the date
guard), every raw string cell whose trimmed, quote-stripped value matches
a recognized date pattern is stored as `Text` verbatim, never `Numeric`. -/
theorem C1_processData_stores_dates_as_text
    (hs : List String) (raw : RawRow) (h v : String)
    (hmem : h ∈ hs) (hv : rawGet raw h = JsVal.str v) (hne : v ≠ "")
    (hd : isDateString (stripQuotes (jsTrim v)) = true) :
    lookupKey (coerceRow hs raw) h = some (Cell.text (stripQuotes (jsTrim v))) := by
  have hcs : coerceString v = Cell.text (stripQuotes (jsTrim v)) := by
    unfold coerceString
    cases hjn : jsNumber (stripQuotes (jsTrim v)) with
    | none => simp [hjn]
    | some q => simp [hjn, hd]
  have hco : coerceCellOpt (rawGet raw h) =
      some (Cell.text (stripQuotes (jsTrim v))) := by
    rw [hv]
    simp [coerceCellOpt, hne, hcs]
  rw [lookupKey_coerceRow, if_pos ⟨hmem, by rw [hco]; rfl⟩, hco]

/-- C1, witness: the concrete cell `"2024-01-02"` is stored as
`Text("2024-01-02")` by `processData`'s coercer. -/
theorem C1_witness :
    lookupKey (coerceRow ["Datum"] [("Datum", JsVal.str "2024-01-02")])
      "Datum" = some (Cell.text "2024-01-02") := by
  have h := C1_processData_stores_dates_as_text ["Datum"]
    [("Datum", JsVal.str "2024-01-02")] "Datum" "2024-01-02"
    (by decide) (by decide) (by decide) (by decide)
  rw [show stripQuotes (jsTrim "2024-01-02") = "2024-01-02" from by decide] at h
  exact h


/-- C2: for every table produced with a detected time axis and axis header
`timeHeaderOf hs`, the rows are ascending in canonical timestamp for every
index pair `i < j` (monotonicity); rows with equal canonical timestamps
(including the fallback-`0` class) retain their relative pre-sort order
(stability, stated as preservation of every timestamp class); and sorting
the already time-sorted rows yields the identical row sequence
(idempotence). -/
theorem C2_timeSort_monotone_stable_idempotent
    (hs : List String) (raws : List RawRow) (fn : Option String)
    (hta : (processData hs raws fn).hasTimeAxis = true) :
    (∀ (i j : ℕ) (hi : i < (processData hs raws fn).rows.length)
        (hj : j < (processData hs raws fn).rows.length), i < j →
        rowTs (timeHeaderOf hs) ((processData hs raws fn).rows[i]) ≤
          rowTs (timeHeaderOf hs) ((processData hs raws fn).rows[j])) ∧
    (∀ q : ℚ, (processData hs raws fn).rows.filter
          (fun r => decide (rowTs (timeHeaderOf hs) r = q)) =
        (buildRows hs raws).filter
          (fun r => decide (rowTs (timeHeaderOf hs) r = q))) ∧
    sortRows (timeHeaderOf hs) ((processData hs raws fn).rows) =
      (processData hs raws fn).rows := by
  have hth : timeHeaderOf hs ≠ "" := by
    by_contra hc
    simp [processData, hc] at hta
  have hrows := processData_rows_of_timeAxis hs raws fn hth
  refine ⟨?_, ?_, ?_⟩
  · rw [hrows]
    intro i j hi hj hij
    exact (List.pairwise_iff_getElem.mp
      (sorted_insertionSort_key (rowTs (timeHeaderOf hs)) (buildRows hs raws)))
      i j hi hj hij
  · intro q
    rw [hrows]
    exact insertionSort_key_filter (rowTs (timeHeaderOf hs)) q (buildRows hs raws)
  · rw [hrows]
    exact insertionSort_key_of_sorted (rowTs (timeHeaderOf hs)) _
      (sorted_insertionSort_key (rowTs (timeHeaderOf hs)) (buildRows hs raws))

/-- C2, witness: a concrete two-row `Datum` table has a time axis, and
re-sorting its produced rows leaves them identical. -/
theorem C2_witness :
    (processData ["Datum"] rawsDatum none).hasTimeAxis = true ∧
    sortRows (timeHeaderOf ["Datum"])
        ((processData ["Datum"] rawsDatum none).rows) =
      (processData ["Datum"] rawsDatum none).rows :=
  ⟨by decide, (C2_timeSort_monotone_stable_idempotent ["Datum"] rawsDatum none
    (by decide)).2.2⟩

/-- C3, counterexample: with the scenario-B tables (`["Datum","A"]` and
`["Datum","B"]`), the union merger re-sorts the concatenation by the
`Datum` timestamps, so the merged rows are not the existing rows followed
by the incoming rows as the claim states. -/
theorem C3_counterexample_merge_rows_resorted :
    (mergeDatasets tblDatumA tblDatumB).rows ≠
      tblDatumA.rows ++ tblDatumB.rows := by
  decide

/-- C3, amended: for canonical (duplicate-free-header) tables, the union
merge yields the existing headers followed by the incoming headers not
already present (in order of first appearance), and its rows are the
concatenation of the two row lists — re-sorted stably by canonical
timestamp when the existing table has a `datum`/`date`/`zeit`/`time`
header (the merged rows are then a permutation of the concatenation,
ascending in the merger's canonical timestamp, with every
equal-timestamp class kept in its concatenation order — which together
determine the stable re-sort), and the plain concatenation otherwise —
with every merged row one of the input rows, its present keys
unchanged. -/
theorem C3_union_merge_shape (e i : ParsedData)
    (hnde : e.headers.Nodup) (hndi : i.headers.Nodup) :
    (mergeDatasets e i).headers =
      e.headers ++ i.headers.filter (fun h => decide (h ∉ e.headers)) ∧
    List.Perm (mergeDatasets e i).rows (e.rows ++ i.rows) ∧
    (mergeTimeHeaderOf e.headers = none →
      (mergeDatasets e i).rows = e.rows ++ i.rows) ∧
    (∀ th, mergeTimeHeaderOf e.headers = some th →
      (mergeDatasets e i).rows.Pairwise
        (fun a b => rowTsMerge th a ≤ rowTsMerge th b) ∧
      ∀ q : ℚ, (mergeDatasets e i).rows.filter
          (fun r => decide (rowTsMerge th r = q)) =
        (e.rows ++ i.rows).filter
          (fun r => decide (rowTsMerge th r = q))) ∧
    (∀ r ∈ (mergeDatasets e i).rows, r ∈ e.rows ∨ r ∈ i.rows) := by
  have hperm : List.Perm (mergeDatasets e i).rows (e.rows ++ i.rows) := by
    simp only [mergeDatasets]
    cases mergeTimeHeaderOf e.headers with
    | none => exact List.Perm.refl _
    | some th => exact List.perm_insertionSort _ _
  refine ⟨?_, hperm, ?_, ?_, ?_⟩
  · simp only [mergeDatasets]
    exact dedupFirst_append _ _ hnde hndi
  · intro hth
    simp only [mergeDatasets, hth]
  · intro th hth
    simp only [mergeDatasets, hth]
    constructor
    · exact sorted_insertionSort_key (rowTsMerge th) (e.rows ++ i.rows)
    · intro q
      exact insertionSort_key_filter (rowTsMerge th) q (e.rows ++ i.rows)
  · intro r hr
    exact List.mem_append.mp (hperm.mem_iff.mp hr)

/-- C3, witness: merging the scenario-B tables yields headers
`["Datum", "A", "B"]`, every merged row comes from one of the inputs, and
the row originating from the second table has no `"A"` key. -/
theorem C3_witness :
    (mergeDatasets tblDatumA tblDatumB).headers =
      tblDatumA.headers ++
        tblDatumB.headers.filter (fun h => decide (h ∉ tblDatumA.headers)) ∧
    (mergeDatasets tblDatumA tblDatumB).headers = ["Datum", "A", "B"] ∧
    (mergeDatasets tblDatumA tblDatumB).rows.Pairwise
      (fun a b => rowTsMerge "Datum" a ≤ rowTsMerge "Datum" b) ∧
    (∀ q : ℚ, (mergeDatasets tblDatumA tblDatumB).rows.filter
        (fun r => decide (rowTsMerge "Datum" r = q)) =
      (tblDatumA.rows ++ tblDatumB.rows).filter
        (fun r => decide (rowTsMerge "Datum" r = q))) ∧
    (∀ r ∈ (mergeDatasets tblDatumA tblDatumB).rows,
      r ∈ tblDatumA.rows ∨ r ∈ tblDatumB.rows) ∧
    lookupKey (tblDatumB.rows.getD 0 []) "A" = none :=
  ⟨(C3_union_merge_shape tblDatumA tblDatumB (by decide) (by decide)).1,
   by decide,
   ((C3_union_merge_shape tblDatumA tblDatumB (by decide) (by decide)).2.2.2.1
     "Datum" (by decide)).1,
   ((C3_union_merge_shape tblDatumA tblDatumB (by decide) (by decide)).2.2.2.1
     "Datum" (by decide)).2,
   (C3_union_merge_shape tblDatumA tblDatumB (by decide) (by decide)).2.2.2.2,
   by decide⟩

/-- C4, counterexample: `tblCreatedDatum` is a canonical table (produced
by `processData`, sorted by its detected axis `Created_At`), yet merging
it with the empty table re-sorts its rows by `Datum` — the first header
matching the union merger's shorter keyword list — so the merge result
differs from the table itself in its rows. -/
theorem C4_counterexample_merge_empty_resorts :
    (mergeDatasets tblCreatedDatum emptyPD).rows ≠ tblCreatedDatum.rows := by
  decide

/-- C4, amended: merging a table with the empty table in the default
union mode succeeds and returns the table unchanged (up to the refreshed
wall-clock `ingestedAt`, which is outside the value model), provided the
table's headers are duplicate-free and its rows are already sorted by the
merger's detected `datum`/`date`/`zeit`/`time` header when one exists —
in particular whenever that header is the table's own detected axis. -/
theorem C4_merge_empty_identity (A : ParsedData) (hnd : A.headers.Nodup)
    (hsorted : ∀ th, mergeTimeHeaderOf A.headers = some th →
      A.rows.Pairwise (keyLeP (rowTsMerge th))) :
    mergeDatasets A emptyPD = A := by
  obtain ⟨hsA, rowsA, fnA, htA⟩ := A
  simp only [mergeDatasets, emptyPD, List.append_nil] at *
  rw [dedupFirst_of_nodup hsA hnd]
  cases hth : mergeTimeHeaderOf hsA with
  | none => simp
  | some th =>
      have hrw := insertionSort_key_of_sorted (rowTsMerge th) rowsA
        (hsorted th hth)
      simp [hrw]

/-- C4, witness: merging the concrete scenario-A table with the empty
table returns it unchanged. -/
theorem C4_witness : mergeDatasets tblScenarioA emptyPD = tblScenarioA :=
  C4_merge_empty_identity tblScenarioA (by decide)
    (by
      intro th hth
      have h₃ : mergeTimeHeaderOf tblScenarioA.headers = some "Datum" := by
        decide
      rw [h₃] at hth
      have h₂ : th = "Datum" := (Option.some_inj.mp hth).symm
      subst h₂
      decide)

theorem processData_rows_of_no_timeAxis (hs : List String)
    (raws : List RawRow) (fn : Option String) (hth : timeHeaderOf hs = "") :
    (processData hs raws fn).rows = buildRows hs raws := by
  simp [processData, hth]

/-- C5, counterexample: a header named `Index` satisfies the claim's
seven-keyword criterion (which includes `"index"`), yet the code detects
no time axis — the source's keyword list has no `"index"` entry. -/
theorem C5_counterexample_index_not_keyword :
    (processData ["Index"] [] none).hasTimeAxis = false ∧
    specHasTimeAxisWithIndex ["Index"] = true := by
  constructor
  · decide
  · decide

/-- C5, amended: `hasTimeAxis` is true exactly when some header's
lower-cased form contains one of the six keywords
`datum`, `date`, `zeit`, `time`, `timestamp`, `created` (no `index`),
and the designated axis header is the first matching header in original
order — in particular `Created_At` is selected over `Value`. -/
theorem C5_time_axis_detection (hs : List String) (raws : List RawRow)
    (fn : Option String) :
    ((processData hs raws fn).hasTimeAxis = true ↔
      ∃ h ∈ hs, ∃ k ∈ timeKeywords, strIncludes (toLowerStr h) k = true) ∧
    (∀ (pre : List String) (h : String) (suf : List String),
      hs = pre ++ h :: suf → matchesTimeKeyword h = true →
      (∀ x ∈ pre, matchesTimeKeyword x = false) →
      timeHeaderOf hs = h ∧ (processData hs raws fn).hasTimeAxis = true) := by
  have hempty : matchesTimeKeyword "" = false := by decide
  have hiff : timeHeaderOf hs ≠ "" ↔ ∃ h ∈ hs, matchesTimeKeyword h = true := by
    constructor
    · intro hne
      cases hf : hs.find? matchesTimeKeyword with
      | none => exact absurd (by simp [timeHeaderOf, hf]) hne
      | some x =>
          exact ⟨x, List.mem_of_find?_eq_some hf, List.find?_some hf⟩
    · rintro ⟨h, hmem, hmatch⟩
      cases hf : hs.find? matchesTimeKeyword with
      | none =>
          have := List.find?_eq_none.mp hf h hmem
          simp [hmatch] at this
      | some x =>
          have hx : matchesTimeKeyword x = true := List.find?_some hf
          have hxe : x ≠ "" := by
            intro hc
            rw [hc, hempty] at hx
            cases hx
          simp [timeHeaderOf, hf, hxe]
  constructor
  · rw [show (processData hs raws fn).hasTimeAxis =
        decide (timeHeaderOf hs ≠ "") from rfl]
    rw [decide_eq_true_iff, hiff]
    constructor
    · rintro ⟨h, hmem, hmatch⟩
      exact ⟨h, hmem, List.any_eq_true.mp hmatch⟩
    · rintro ⟨h, hmem, k, hk, hinc⟩
      exact ⟨h, hmem, List.any_eq_true.mpr ⟨k, hk, hinc⟩⟩
  · intro pre h suf hsplit hmatch hpre
    have hfind : hs.find? matchesTimeKeyword = some h := by
      rw [hsplit, List.find?_append]
      have h₁ : pre.find? matchesTimeKeyword = none := by
        rw [List.find?_eq_none]
        intro x hx
        simp [hpre x hx]
      rw [h₁, List.find?_cons_of_pos _ hmatch]
      rfl
    have hne : h ≠ "" := by
      intro hc
      rw [hc, hempty] at hmatch
      cases hmatch
    constructor
    · simp [timeHeaderOf, hfind]
    · rw [show (processData hs raws fn).hasTimeAxis =
          decide (timeHeaderOf hs ≠ "") from rfl, decide_eq_true_iff]
      simp [timeHeaderOf, hfind, hne]

/-- C5, witness: `Created_At` is selected as the axis over `Value` and the
time axis is detected. -/
theorem C5_witness :
    timeHeaderOf ["Created_At", "Value"] = "Created_At" ∧
    (processData ["Created_At", "Value"] [] none).hasTimeAxis = true :=
  (C5_time_axis_detection ["Created_At", "Value"] [] none).2
    [] "Created_At" ["Value"] rfl (by decide) (by simp)

/-- C6, counterexample: parsing a CSV file whose header line repeats a
column name produces a table with duplicate headers, so header uniqueness
does not hold for every produced table. -/
theorem C6_counterexample_duplicate_parsed_headers :
    (parseFileCSV "A,A\n1,2" (some "f.csv")).headers = ["A", "A"] ∧
    ¬ (parseFileCSV "A,A\n1,2" (some "f.csv")).headers.Nodup := by
  constructor
  · decide
  · decide

/-- C6, amended: tables produced by the union merger always have
duplicate-free headers (the `Set`-based union deduplicates), while tables
produced by parsing carry the header line verbatim, so their headers are
duplicate-free exactly when the normalized header fields of the file are
pairwise distinct. -/
theorem C6_header_uniqueness :
    (∀ e i : ParsedData, (mergeDatasets e i).headers.Nodup) ∧
    (∀ (text : String) (fn : Option String),
      ((smartSplit ((splitLines (jsTrim text)).getD 0 "")).map
          (fun h => stripQuotes (jsTrim h))).Nodup →
      (parseFileCSV text fn).headers.Nodup) := by
  constructor
  · intro e i
    show (dedupFirst (e.headers ++ i.headers)).Nodup
    exact dedupFirst_nodup _
  · intro text fn hnd
    unfold parseFileCSV
    by_cases hl : (splitLines (jsTrim text)).length < 2
    · simp [hl]
    · simp only [hl, if_false]
      exact hnd

/-- C6, witness: the scenario-B merge result and the scenario-A parse both
have duplicate-free headers. -/
theorem C6_witness :
    (mergeDatasets tblDatumA tblDatumB).headers.Nodup ∧
    (parseFileCSV "Datum,Wert\n2024-01-02,5\n2024-01-01,3"
        (some "a.csv")).headers.Nodup :=
  ⟨C6_header_uniqueness.1 tblDatumA tblDatumB,
   C6_header_uniqueness.2 "Datum,Wert\n2024-01-02,5\n2024-01-01,3"
     (some "a.csv") (by decide)⟩

/-- C7, counterexample: the `parseCSV` variant materializes the key of an
empty raw cell (`row[header] = val` in its fallback branch), so the row
built from `"1,"` carries the key `B` with an empty `Text` value, where
the claim requires the key to be absent. -/
theorem C7_counterexample_parseCSV_materializes_empty :
    (parseCSVv2 "A,B\n1," none).rows =
      [[("A", Cell.num 1), ("B", Cell.text "")]] ∧
    lookupKey ((parseCSVv2 "A,B\n1," none).rows.getD 0 []) "B" =
      some (Cell.text "") := by
  constructor
  · decide
  · decide

/-- C7, amended: in the `processData` pipeline, a header/raw-cell pair
whose raw value is `undefined`, `null` or the empty string yields no key
in the coerced record, and every row of the produced table has at least
one present key (zero-key rows are dropped); the `parseCSV` variant
instead materializes every header as a key. -/
theorem C7_processData_sparse_and_dropped
    (hs : List String) (raws : List RawRow) (fn : Option String) :
    (∀ (raw : RawRow) (h : String),
      (rawGet raw h = JsVal.undef ∨ rawGet raw h = JsVal.null ∨
        rawGet raw h = JsVal.str "") →
      lookupKey (coerceRow hs raw) h = none) ∧
    (∀ row ∈ (processData hs raws fn).rows, row ≠ []) := by
  constructor
  · intro raw h hv
    rw [lookupKey_coerceRow]
    have hnone : coerceCellOpt (rawGet raw h) = none := by
      rcases hv with hv | hv | hv <;> rw [hv] <;> simp [coerceCellOpt]
    simp [hnone]
  · intro row hrow
    have hmem : row ∈ buildRows hs raws := by
      by_cases hth : timeHeaderOf hs = ""
      · rwa [processData_rows_of_no_timeAxis hs raws fn hth] at hrow
      · rw [processData_rows_of_timeAxis hs raws fn hth,
          sortRows_eq_insertionSort_key] at hrow
        exact (insertionSort_key_perm (rowTs (timeHeaderOf hs))
          (buildRows hs raws)).mem_iff.mp hrow
    exact mem_buildRows_ne_nil hs raws row hmem

/-- C7, witness: the empty raw cell under header `B` yields no key, and
every row of a concrete produced table is non-empty. -/
theorem C7_witness :
    lookupKey (coerceRow ["A", "B"]
      [("A", JsVal.str "1"), ("B", JsVal.str "")]) "B" = none ∧
    (∀ row ∈ (processData ["A"] [[("A", JsVal.str "")]] none).rows,
      row ≠ []) :=
  ⟨(C7_processData_sparse_and_dropped ["A", "B"] [] none).1
      [("A", JsVal.str "1"), ("B", JsVal.str "")] "B"
      (Or.inr (Or.inr (by decide))),
   (C7_processData_sparse_and_dropped ["A"] [[("A", JsVal.str "")]] none).2⟩

/-- C9, counterexample: the categorical axis value `"Apple"` is not a
date-shaped string, so the claim's retention predicate keeps its row; the
code nevertheless compares every string lexically against the bounds and
drops the row for `start = "B"`. -/
theorem C9_counterexample_non_date_string_constrained :
    filteredRows tblFruit "Fruit" "B" "" = [] ∧
    isDateString "Apple" = false ∧
    tblFruit.rows.filter (specRetainDateShaped "Fruit" "B" "") =
      tblFruit.rows := by
  refine ⟨by decide, by decide, by decide⟩

/-- C9, amended: with at least one non-empty bound, the range filter keeps
exactly the rows whose axis cell is not a string (numbers and absent cells
pass through), or whose string value — date-shaped or not — compares
lexically within the non-empty bounds; with both bounds empty all rows
pass; the transform is a pure function of the row list (the stored table
is untouched). -/
theorem C9_range_filter_characterization (data : ParsedData)
    (key s e : String) :
    filteredRows data key s e = data.rows.filter (fun row =>
      match lookupKey row key with
      | some (Cell.text v) =>
          (decide (s = "") || jsStrGe v s) &&
          (decide (e = "") || jsStrLe v e)
      | _ => true) ∧
    (∀ row, row ∈ filteredRows data key s e ↔ row ∈ data.rows ∧
      ((∀ v, lookupKey row key ≠ some (Cell.text v)) ∨
        (∃ v, lookupKey row key = some (Cell.text v) ∧
          (s ≠ "" → jsStrGe v s = true) ∧ (e ≠ "" → jsStrLe v e = true)))) := by
  have h₁ : filteredRows data key s e = data.rows.filter (fun row =>
      match lookupKey row key with
      | some (Cell.text v) =>
          (decide (s = "") || jsStrGe v s) &&
          (decide (e = "") || jsStrLe v e)
      | _ => true) := by
    unfold filteredRows
    by_cases hse : s = "" ∧ e = ""
    · rw [if_pos hse]
      refine (List.filter_eq_self.mpr ?_).symm
      intro row _
      cases hm : lookupKey row key with
      | none => rfl
      | some c =>
          cases c with
          | num q => rfl
          | text v => simp [hse.1, hse.2]
    · rw [if_neg hse]
      apply List.filter_congr
      intro row _
      cases hm : lookupKey row key with
      | none => rfl
      | some c =>
          cases c with
          | num q => rfl
          | text v =>
              by_cases hs : s = "" <;> by_cases he : e = "" <;>
                simp [hs, he]
  refine ⟨h₁, ?_⟩
  intro row
  rw [h₁, List.mem_filter]
  constructor
  · rintro ⟨hmem, hp⟩
    refine ⟨hmem, ?_⟩
    cases hm : lookupKey row key with
    | none =>
        left
        simp [hm]
    | some c =>
        cases c with
        | num q =>
            left
            simp [hm]
        | text v =>
            right
            rw [hm] at hp
            simp only [Bool.and_eq_true, Bool.or_eq_true,
              decide_eq_true_iff] at hp
            refine ⟨v, rfl, ?_, ?_⟩
            · intro hsne
              rcases hp.1 with h | h
              · exact absurd h hsne
              · exact h
            · intro hene
              rcases hp.2 with h | h
              · exact absurd h hene
              · exact h
  · rintro ⟨hmem, hdis⟩
    refine ⟨hmem, ?_⟩
    cases hm : lookupKey row key with
    | none => rfl
    | some c =>
        cases c with
        | num q => rfl
        | text v =>
            rcases hdis with hnone | ⟨v', hv', hsle, hele⟩
            · exact absurd hm (hnone v)
            · rw [hm] at hv'
              have hvv : v' = v := by
                injection hv' with hv''
                injection hv'' with hv₃
                exact hv₃.symm
              subst hvv
              simp only [Bool.and_eq_true, Bool.or_eq_true,
                decide_eq_true_iff]
              constructor
              · by_cases hs : s = ""
                · exact Or.inl hs
                · exact Or.inr (hsle hs)
              · by_cases he : e = ""
                · exact Or.inl he
                · exact Or.inr (hele he)

/-- C9, witness: scenario C — filtering scenario A's table with
`start = "2024-01-02"` and an empty end bound retains only the
`2024-01-02` row. -/
theorem C9_witness :
    filteredRows tblScenarioA "Datum" "2024-01-02" "" =
      tblScenarioA.rows.filter (fun row =>
        match lookupKey row "Datum" with
        | some (Cell.text v) =>
            (decide (("2024-01-02" : String) = "") ||
              jsStrGe v "2024-01-02") &&
            (decide (("" : String) = "") || jsStrLe v "")
        | _ => true) ∧
    filteredRows tblScenarioA "Datum" "2024-01-02" "" =
      [[("Datum", Cell.text "2024-01-02"), ("Wert", Cell.num 5)]] :=
  ⟨(C9_range_filter_characterization tblScenarioA "Datum" "2024-01-02" "").1,
   by decide⟩

theorem parseCSVRows_eq_filter_map (headers : List String)
    (ls : List String) :
    parseCSVRows headers ls =
      (ls.filter (fun l => decide (jsTrim l ≠ "") &&
        decide ((smartSplit l).length = headers.length))).map
        (fun l => parseCSVRow headers (smartSplit l)) := by
  induction ls with
  | nil => rfl
  | cons line rest ih =>
      by_cases hb : jsTrim line = ""
      · simp [parseCSVRows, hb, ih]
      · by_cases hc : (smartSplit line).length = headers.length <;>
          simp [parseCSVRows, hb, hc, ih]

/-- C10: in the `parseCSV` variant that validates field counts, every
non-blank data line whose quote-aware comma split yields a field count
different from the header count is silently dropped — it contributes no
row and raises no error (the parser is a total function) — so the output
rows are exactly the coercions of the well-formed data lines in input
order. -/
theorem C10_malformed_lines_dropped (text : String) (fn : Option String)
    (headers : List String)
    (hheaders : headers =
      (plainSplitComma ((splitLines (jsTrim text)).getD 0 "")).map
        (fun h => stripQuotes (jsTrim h)))
    (hlen : 2 ≤ (splitLines (jsTrim text)).length) :
    (parseCSVv2 text fn).rows =
      (((splitLines (jsTrim text)).drop 1).filter (fun l =>
        decide (jsTrim l ≠ "") &&
        decide ((smartSplit l).length = headers.length))).map
        (fun l => parseCSVRow headers (smartSplit l)) := by
  subst hheaders
  unfold parseCSVv2
  have hnl : ¬ (splitLines (jsTrim text)).length < 2 := by omega
  simp only [hnl, if_false]
  exact parseCSVRows_eq_filter_map _ _

/-- C10, witness: in a concrete file, the line `1,2,3` (three fields under
two headers) contributes no row, while both well-formed lines do, in
input order. -/
theorem C10_witness :
    (parseCSVv2 "A,B\n1,2\n1,2,3\nx,y" none).rows =
      ((((splitLines (jsTrim "A,B\n1,2\n1,2,3\nx,y")).drop 1).filter
        (fun l => decide (jsTrim l ≠ "") &&
          decide ((smartSplit l).length = (["A", "B"] : List String).length))).map
        (fun l => parseCSVRow ["A", "B"] (smartSplit l))) ∧
    (parseCSVv2 "A,B\n1,2\n1,2,3\nx,y" none).rows =
      [[("A", Cell.num 1), ("B", Cell.num 2)],
       [("A", Cell.text "x"), ("B", Cell.text "y")]] :=
  ⟨C10_malformed_lines_dropped "A,B\n1,2\n1,2,3\nx,y" none ["A", "B"]
      (by decide) (by decide),
   by decide⟩

theorem calculateMovingAverage_length (rows : List Rec) (key : String)
    (w : ℕ) : (calculateMovingAverage rows key w).length = rows.length := by
  simp [calculateMovingAverage]

theorem calculateMovingAverage_getD_spec (rows : List Rec) (key : String)
    (w i : ℕ) (hw : 1 ≤ w) (hi : i < rows.length) :
    (calculateMovingAverage rows key w).getD i 0 =
      specSmoothedValue rows key w i := by
  rw [List.getD_eq_getElem?_getD, calculateMovingAverage,
    List.getElem?_map, List.getElem?_range hi]
  simp only [Option.map_some', Option.getD_some]
  have hsub : ((rows.take (i + 1)).drop (i + 1 - w)) =
      ((rows.drop (i + 1 - w)).take (i + 1 - (i + 1 - w))) :=
    List.drop_take (i + 1) (i + 1 - w) rows
  have hlen : ((rows.take (i + 1)).drop (i + 1 - w)).length =
      i - (i + 1 - w) + 1 := by
    simp only [List.length_drop, List.length_take]
    omega
  simp only [specSmoothedValue]
  rw [← hsub, List.sum_eq_foldl, List.foldl_map, hlen]

theorem getD_zip_map_setKey (key : String) :
    ∀ (acc : List Rec) (avgs : List ℚ) (i : ℕ), i < acc.length →
      i < avgs.length →
      ((acc.zip avgs).map
          (fun p => setKey p.1 key (Cell.num (round2 p.2)))).getD i [] =
        setKey (acc.getD i []) key (Cell.num (round2 (avgs.getD i 0))) := by
  intro acc
  induction acc with
  | nil => intro avgs i hi _; simp at hi
  | cons a t ih =>
      intro avgs i hi hj
      cases avgs with
      | nil => simp at hj
      | cons q qs =>
          cases i with
          | zero => simp
          | succ n =>
              simp only [List.zip_cons_cons, List.map_cons, List.getD_cons_succ]
              exact ih qs n (by simpa using hi) (by simpa using hj)

theorem chartData_foldl_spec (rows : List Rec) (w : ℕ) (ks : List String) :
    ∀ acc : List Rec, acc.length = rows.length →
      ((ks.foldl (fun acc key =>
          ((acc.zip (calculateMovingAverage rows key w)).map
            (fun p => setKey p.1 key (Cell.num (round2 p.2))))) acc).length =
        rows.length ∧
      ∀ (key : String) (i : ℕ), i < rows.length →
        ((key ∈ ks → lookupKey
            ((ks.foldl (fun acc key =>
              ((acc.zip (calculateMovingAverage rows key w)).map
                (fun p => setKey p.1 key (Cell.num (round2 p.2))))) acc).getD
              i []) key =
            some (Cell.num (round2
              ((calculateMovingAverage rows key w).getD i 0)))) ∧
        (key ∉ ks → lookupKey
            ((ks.foldl (fun acc key =>
              ((acc.zip (calculateMovingAverage rows key w)).map
                (fun p => setKey p.1 key (Cell.num (round2 p.2))))) acc).getD
              i []) key =
            lookupKey (acc.getD i []) key))) := by
  induction ks with
  | nil =>
      intro acc hlen
      exact ⟨hlen, fun key i hi => ⟨fun hmem => absurd hmem (by simp),
        fun _ => rfl⟩⟩
  | cons k ks ih =>
      intro acc hlen
      have hlen₂ : ((acc.zip (calculateMovingAverage rows k w)).map
          (fun p => setKey p.1 k (Cell.num (round2 p.2)))).length =
          rows.length := by
        simp [List.length_zip, hlen, calculateMovingAverage_length]
      have hstep : ∀ (i : ℕ), i < rows.length →
          ((acc.zip (calculateMovingAverage rows k w)).map
            (fun p => setKey p.1 k (Cell.num (round2 p.2)))).getD i [] =
          setKey (acc.getD i []) k
            (Cell.num (round2 ((calculateMovingAverage rows k w).getD i 0))) := by
        intro i hi
        exact getD_zip_map_setKey k acc (calculateMovingAverage rows k w) i
          (by omega) (by rw [calculateMovingAverage_length]; omega)
      obtain ⟨ihlen, ihlook⟩ := ih _ hlen₂
      constructor
      · simp only [List.foldl_cons]
        exact ihlen
      · intro key i hi
        simp only [List.foldl_cons]
        constructor
        · intro hmem
          by_cases hks : key ∈ ks
          · exact (ihlook key i hi).1 hks
          · have hk : key = k := by
              rcases List.mem_cons.mp hmem with h | h
              · exact h
              · exact absurd h hks
            subst hk
            rw [(ihlook key i hi).2 hks, hstep i hi, lookupKey_setKey_self]
        · intro hnmem
          have hnk : key ≠ k := fun hc => hnmem (hc ▸ List.mem_cons_self k ks)
          have hnks : key ∉ ks := fun hc => hnmem (List.mem_cons_of_mem k hc)
          rw [(ihlook key i hi).2 hnks, hstep i hi,
            lookupKey_setKey_ne _ _ _ _ hnk]

/-- C8: the moving-average smoother is the identity for window sizes at
most one; it always preserves the row count; and for `w > 1` each
selected column's displayed value at row `i` is the window sum over
`rows[max(0, i-w+1) .. i]` (non-numeric and absent cells contributing
`0`) divided by the window length `i - max(0, i-w+1) + 1`, rounded to two
decimals — the window length is `min (i+1) w`, hence exactly `i + 1` for
`i < w - 1`. The transform writes into shallow copies, so the stored rows
are untouched (it is a pure function of the row list in this model). -/
theorem C8_smoothing_window (rows : List Rec) (acts : List String) (w : ℕ) :
    (w ≤ 1 → chartData rows acts w = rows) ∧
    (chartData rows acts w).length = rows.length ∧
    (1 < w → ∀ key ∈ acts, ∀ i, i < rows.length →
      lookupKey ((chartData rows acts w).getD i []) key =
        some (Cell.num (round2 (specSmoothedValue rows key w i))) ∧
      i - (i + 1 - w) + 1 = min (i + 1) w ∧
      (i < w - 1 → i - (i + 1 - w) + 1 = i + 1)) := by
  refine ⟨?_, ?_, ?_⟩
  · intro hw
    simp [chartData, hw]
  · by_cases hw : w ≤ 1
    · simp [chartData, hw]
    · rw [chartData, if_neg hw]
      exact (chartData_foldl_spec rows w acts rows rfl).1
  · intro hw key hmem i hi
    rw [chartData, if_neg (by omega : ¬ w ≤ 1)]
    refine ⟨?_, by omega, by intro h; omega⟩
    have hmain := ((chartData_foldl_spec rows w acts rows rfl).2 key i hi).1 hmem
    rw [hmain, calculateMovingAverage_getD_spec rows key w i (by omega) hi]

/-- C8, witness: on three concrete numeric rows with `w = 2`, the identity
at `w = 1`, the row-count preservation, and the displayed value at index
`1` given by the theorem's formula. -/
theorem C8_witness :
    chartData rowsSmooth ["A"] 1 = rowsSmooth ∧
    (chartData rowsSmooth ["A"] 2).length = rowsSmooth.length ∧
    lookupKey ((chartData rowsSmooth ["A"] 2).getD 1 []) "A" =
      some (Cell.num (round2 (specSmoothedValue rowsSmooth "A" 2 1))) :=
  ⟨(C8_smoothing_window rowsSmooth ["A"] 1).1 (by decide),
   (C8_smoothing_window rowsSmooth ["A"] 2).2.1,
   ((C8_smoothing_window rowsSmooth ["A"] 2).2.2 (by decide) "A" (by decide)
     1 (by decide)).1⟩
